import Mathlib

/-!
Shallow embedding of the translation core of `src/dumpi/libotf2dump/otf2writer.cc`
(class `dumpi::OTF2_Writer`): the non-blocking request tracker, the collective
volume accounting, the group/communicator bookkeeping and the two-pass global
ID agreement protocol.  External OTF2 calls (`OTF2_EvtWriter_*`) are modelled
as records appended to an event list; `abort()` / `throw` are modelled as the
`none` outcome.  Machine integers are modelled as `Int` (no formula here relies
on wrap-around behaviour).
-/

namespace Dumpi

/-- Trace records emitted through the external OTF2 event writer, in emission
order.  Field order follows the corresponding `OTF2_EvtWriter_*` call sites. -/
inductive OTF2Event where
  | Enter (time : Int) (region : Nat)
  | Leave (time : Int) (region : Nat)
  | MpiIsendComplete (time : Int) (request : Int)
  | MpiIrecv (time source comm tag bytes request : Int)
  | MpiIrecvRequest (time : Int) (request : Int)
  | MpiCollectiveBegin (time : Int)
  | MpiCollectiveEnd (time : Int) (collective : Nat) (comm root sent received : Int)
deriving DecidableEq, Repr

/-- `REQUEST_TYPE` from the source: the kind tag stored by `incomplete_call`. -/
inductive REQUEST_TYPE where
  | ISEND
  | IRECV
deriving DecidableEq, Repr

/-- `irecv_capture`: the payload captured at `mpi_irecv` post time (initializer
order at otf2writer.cc:784 is `{count_bytes(type,count), source, tag, comm,
request}`, read back as `.source/.comm/.tag/.bytes_sent` at completion). -/
structure irecv_capture where
  bytes_sent : Int
  source : Int
  tag : Int
  comm : Int
  request : Int
deriving DecidableEq, Repr

/-- `OTF2_MPI_Comm`, restricted to the scalar fields the embedded operations
read (the `sub_comms` child list is modelled separately as `CommTree` for the
ID-agreement protocol). -/
structure OTF2_MPI_Comm where
  local_id : Int
  global_id : Int
  local_group_id : Int
  name : String
  is_root : Bool
deriving DecidableEq, Repr

/-- Lookup in an association list, modelling `std::map::find` /
`std::unordered_map::find` on integer keys. -/
def mfind {α : Type} : List (Int × α) → Int → Option α
  | [], _ => none
  | (k', v) :: rest, k => if k' = k then some v else mfind rest k

/-- Key removal, modelling `erase`. -/
def merase {α : Type} : List (Int × α) → Int → List (Int × α)
  | [], _ => []
  | (k', v) :: rest, k =>
    if k' = k then merase rest k else (k', v) :: merase rest k

/-- Keyed overwrite, modelling `m[k] = v`. -/
def minsert {α : Type} (m : List (Int × α)) (k : Int) (v : α) : List (Int × α) :=
  merase m k ++ [(k, v)]

/-- The per-rank mutable members of `OTF2_Writer` touched by the embedded
operations, plus the stream of emitted OTF2 events. -/
structure WriterState where
  world_rank : Int
  start_time : Int
  stop_time : Int
  event_count : Nat
  null_request : Int
  request_type : List (Int × REQUEST_TYPE)
  irecv_requests : List (Int × irecv_capture)
  type_sizes : List (Int × Int)
  comms : List (Int × OTF2_MPI_Comm)
  regions : List String
  events : List OTF2Event
deriving DecidableEq, Repr

/-- Insertion-ordered string interner (`OTF2DefTable::insert`): returns the
existing index when present, otherwise appends. -/
def regions_insert (tbl : List String) (name : String) : List String × Nat :=
  match tbl.findIdx? (fun s => s == name) with
  | some i => (tbl, i)
  | none => (tbl ++ [name], tbl.length)

/-- The `_ENTER(name)` macro: update the timeline bounds, intern the region
name, emit an Enter record, bump the event counter.  Returns the state and the
region id held in the local `this_region`. -/
def enterUpd (s : WriterState) (name : String) (start stop : Int) : WriterState × Nat :=
  let ir := regions_insert s.regions name
  ({ s with
      start_time := min s.start_time start,
      stop_time := max s.stop_time stop,
      regions := ir.1,
      events := s.events ++ [.Enter start ir.2],
      event_count := s.event_count + 1 }, ir.2)

/-- The `_LEAVE()` macro: emit the Leave record and bump the event counter
(returning `OTF2_WRITER_SUCCESS` is implicit in a `some` result). -/
def leaveUpd (s : WriterState) (stop : Int) (region : Nat) : WriterState :=
  { s with
      events := s.events ++ [.Leave stop region],
      event_count := s.event_count + 1 }

/-- `OTF2_Writer::count_bytes` (otf2writer.cc:1541-1551): unknown datatype
handles fall back to 4 bytes per element (the error is only logged; the
function is total and never aborts). -/
def count_bytes (type_sizes : List (Int × Int)) (type count : Int) : Int :=
  match mfind type_sizes type with
  | none => 4 * count
  | some sz => sz * count

/-- `OTF2_Writer::incomplete_call` (otf2writer.cc:686-690): register a pending
request unless the id is the null sentinel; an existing entry is overwritten
with the new kind. -/
def incomplete_call (s : WriterState) (request_id : Int) (ty : REQUEST_TYPE) : WriterState :=
  if request_id != s.null_request then
    { s with request_type := minsert s.request_type request_id ty }
  else
    s

/-- `OTF2_Writer::complete_call` (otf2writer.cc:697-731).  `none` models
`abort()`.  An untracked non-null id aborts; the untracked null sentinel is a
silent no-op; a tracked ISEND emits a completion record; a tracked IRECV emits
the captured receive payload and drops the capture.  Both tracked branches
erase the `request_type` entry (line 730). -/
def complete_call (s : WriterState) (request_id : Int) (timestamp : Int) : Option WriterState :=
  match mfind s.request_type request_id with
  | none =>
    if request_id != s.null_request then
      none
    else
      some s
  | some ty =>
    match ty with
    | .ISEND =>
      some { s with
              events := s.events ++ [.MpiIsendComplete timestamp request_id],
              event_count := s.event_count + 1,
              request_type := merase s.request_type request_id }
    | .IRECV =>
      match mfind s.irecv_requests request_id with
      | none => none
      | some irecv =>
        some { s with
                events := s.events ++
                  [.MpiIrecv timestamp irecv.source irecv.comm irecv.tag irecv.bytes_sent request_id],
                event_count := s.event_count + 1,
                irecv_requests := merase s.irecv_requests request_id,
                request_type := merase s.request_type request_id }

/-- `OTF2_Writer::mpi_irecv` (otf2writer.cc:779-789): capture the receive
payload under the request id, register the pending IRECV, emit the request
record. -/
def mpi_irecv (s : WriterState) (start stop : Int)
    (type count source comm tag request : Int) : WriterState :=
  let er := enterUpd s "MPI_Irecv" start stop
  let s2 := { er.1 with
      irecv_requests := minsert er.1.irecv_requests request
        ⟨count_bytes er.1.type_sizes type count, source, tag, comm, request⟩ }
  let s3 := incomplete_call s2 request .IRECV
  let s4 := { s3 with
      events := s3.events ++ [.MpiIrecvRequest start request],
      event_count := s3.event_count + 1 }
  leaveUpd s4 stop er.2

/-- The `for` loop of `OTF2_Writer::mpi_waitall` (otf2writer.cc:820-827): the
`called` set skips null-sentinel entries and ids already completed in this
call. -/
def waitallLoop (start : Int) : WriterState → List Int → List Int → Option WriterState
  | s, [], _ => some s
  | s, r :: rest, called =>
    if r != s.null_request && !(called.contains r) then
      match complete_call s r start with
      | none => none
      | some s2 => waitallLoop start s2 rest (r :: called)
    else
      waitallLoop start s rest called

/-- `OTF2_Writer::mpi_waitall` (otf2writer.cc:814-829); the C array walk
`for(i=0;i<count;i++) requests[i]` is the walk of the first `count` list
entries. -/
def mpi_waitall (s : WriterState) (start stop : Int)
    (count : Nat) (requests : List Int) : Option WriterState :=
  let er := enterUpd s "MPI_Waitall" start stop
  (waitallLoop start er.1 (requests.take count) []).map (fun s2 => leaveUpd s2 stop er.2)

/-- Sequential completion of a list of request ids with no deduplication:
the loop bodies of `mpi_testall`, `mpi_waitsome` and `mpi_testsome`. -/
def completeMany (start : Int) : WriterState → List Int → Option WriterState
  | s, [] => some s
  | s, r :: rest =>
    match complete_call s r start with
    | none => none
    | some s2 => completeMany start s2 rest

/-- `OTF2_Writer::mpi_testall` (otf2writer.cc:863-874): when the flag is true,
complete every entry of the array in order, with no deduplication. -/
def mpi_testall (s : WriterState) (start stop : Int)
    (count : Nat) (requests : List Int) (flag : Bool) : Option WriterState :=
  let er := enterUpd s "MPI_Testall" start stop
  let r := if flag then completeMany start er.1 (requests.take count) else some er.1
  r.map (fun s2 => leaveUpd s2 stop er.2)

/-- `OTF2_Writer::mpi_waitsome` (otf2writer.cc:831-840): complete
`requests[indices[i]]` for each listed index, with no deduplication. -/
def mpi_waitsome (s : WriterState) (start stop : Int)
    (requests : List Int) (outcount : Nat) (indices : List Nat) : Option WriterState :=
  let er := enterUpd s "MPI_Waitsome" start stop
  (completeMany start er.1 ((indices.take outcount).map (fun i => requests.getD i 0))).map
    (fun s2 => leaveUpd s2 stop er.2)

/-- `OTF2_Writer::mpi_testsome` (otf2writer.cc:876-885): identical loop to
`mpi_waitsome` (note: no success flag is consulted). -/
def mpi_testsome (s : WriterState) (start stop : Int)
    (requests : List Int) (outcount : Nat) (indices : List Nat) : Option WriterState :=
  let er := enterUpd s "MPI_Testsome" start stop
  (completeMany start er.1 ((indices.take outcount).map (fun i => requests.getD i 0))).map
    (fun s2 => leaveUpd s2 stop er.2)

/-- `OTF2_Writer::get_world_rank` (otf2writer.cc:1520-1525): a `//TODO` stub
that returns 0 for every input. -/
def get_world_rank (s : WriterState) (comm_rank : Int) (comm : Int) : Int := 0

/-- `OTF2_Writer::get_comm_size` (otf2writer.cc:1534-1539): a `//TODO` stub
that returns 0 for every input. -/
def get_comm_size (s : WriterState) (comm : Int) : Int := 0

/-- Collective op tags used by the embedded collectives. -/
def OTF2_COLLECTIVE_OP_BCAST : Nat := 2

/-- `OTF2_Writer::mpi_bcast` (otf2writer.cc:896-910), including the
`COLLECTIVE_WRAPPER` expansion: emits begin/end records where
`sent = is_root ? bytes * get_comm_size(comm) : 0`, `received = bytes`. -/
def mpi_bcast (s : WriterState) (start stop : Int)
    (count : Int) (type : Int) (root : Int) (comm : Int) : WriterState :=
  let er := enterUpd s "MPI_Bcast" start stop
  let world_root := get_world_rank er.1 root comm
  let is_root := world_root == er.1.world_rank
  let bytes := count_bytes er.1.type_sizes type count
  let sent := if is_root then bytes * get_comm_size er.1 comm else 0
  let s2 := { er.1 with
      events := er.1.events ++
        [.MpiCollectiveBegin start,
         .MpiCollectiveEnd stop OTF2_COLLECTIVE_OP_BCAST comm root sent bytes],
      event_count := er.1.event_count + 2 }
  leaveUpd s2 stop er.2

/-- Outcome of `mpi_comm_group`: `success` is `return OTF2_WRITER_SUCCESS`,
`mismatch_abort` is the `throw exception(...)` of otf2writer.cc:1321. -/
inductive CommGroupOutcome where
  | success (s : WriterState)
  | mismatch_abort (s : WriterState)
deriving DecidableEq, Repr

/-- `OTF2_Writer::mpi_comm_group` (otf2writer.cc:1313-1323).  The body is
`_ENTER; _LEAVE(); if (comm_st.local_group_id != group) throw ...`, and
`_LEAVE()` (otf2writer.cc:78-84) expands to an unconditional
`return OTF2_WRITER_SUCCESS`, so `returned` below is always `some` and the
group-mismatch check — translated verbatim in the dead `none` branch — can
never execute. -/
def mpi_comm_group (s : WriterState) (start stop : Int)
    (comm : Int) (group : Int) : CommGroupOutcome :=
  let er := enterUpd s "MPI_Comm_group" start stop
  let returned : Option CommGroupOutcome := some (.success (leaveUpd er.1 stop er.2))
  match returned with
  | some r => r
  | none =>
    let comm_st := (mfind er.1.comms comm).getD ⟨0, 0, 0, "", false⟩
    if comm_st.local_group_id != group then
      .mismatch_abort er.1
    else
      .success er.1

/-- Ascending insertion without duplicates: one `std::set<int>::insert`. -/
def sortedInsert (x : Int) : List Int → List Int
  | [] => [x]
  | y :: ys =>
    if x < y then x :: y :: ys
    else if x == y then y :: ys
    else y :: sortedInsert x ys

/-- The `std::set<int> sortedRanks` built at otf2writer.cc:1170-1171: the
excluded indices, sorted ascending with duplicates dropped. -/
def sortedRanksOf (ranks : List Int) : List Int :=
  ranks.foldl (fun acc x => sortedInsert x acc) []

/-- Bounds-checked store into the output vector; the loop of
`mpi_group_excl_first_pass` never writes out of bounds on inputs where every
excluded index matches a parent position. -/
def setSafe (a : Array Int) (i : Nat) (v : Int) : Array Int :=
  if h : i < a.size then a.set ⟨i, h⟩ v else a

/-- Loop-carried state of the exclusion loop at otf2writer.cc:1177-1186:
`iter` is the position of the `std::set` iterator, `oob` records whether the
loop has dereferenced the iterator at (or past) `end()` — an out-of-bounds
read that is undefined behaviour in the source. -/
structure ExclState where
  iter : Nat
  nextInsertIndex : Nat
  out : Array Int
  oob : Bool
deriving DecidableEq, Repr

/-- One iteration of the loop body (`i` is the loop counter): read
`nextToAvoid = *iter` — when the iterator is exhausted the read is
out-of-bounds and yields the indeterminate value `junk` — then either consume
the excluded index or copy the parent entry. -/
def exclStep (junk : Int) (sorted parent : List Int) (st : ExclState) (i : Nat) : ExclState :=
  let read := sorted.get? st.iter
  let nextToAvoid := read.getD junk
  let oob1 := st.oob || read.isNone
  let nextRank := parent.getD i 0
  if nextToAvoid == (i : Int) then
    { st with iter := st.iter + 1, oob := oob1 }
  else
    { st with
        out := setSafe st.out st.nextInsertIndex nextRank,
        nextInsertIndex := st.nextInsertIndex + 1,
        oob := oob1 }

/-- `OTF2_Writer::mpi_group_excl_first_pass` (otf2writer.cc:1163-1188),
restricted to the membership computation: the new group's membership and a
flag recording whether any out-of-bounds iterator dereference occurred.
`junk` stands for the indeterminate value such a dereference yields. -/
def mpi_group_excl_first_pass (junk : Int) (parent ranks : List Int) : List Int × Bool :=
  let sorted := sortedRanksOf ranks
  let numParentRanks := parent.length
  let st0 : ExclState := ⟨0, 0, Array.mkArray (numParentRanks - ranks.length) 0, false⟩
  let stF := (List.range numParentRanks).foldl (exclStep junk sorted parent) st0
  (stF.out.toList, stF.oob)

/-- `OTF2_Writer::mpi_group_incl_first_pass` (otf2writer.cc:1141-1153): the
new membership is the parent's membership indexed by the given positions. -/
def mpi_group_incl_first_pass (parent ranks : List Int) : List Int :=
  ranks.map (fun i => parent.getD i.toNat 0)

/-! ## Global ID agreement protocol (otf2writer.cc:1216-1279)

The communicator forest below WORLD: each node is one `OTF2_MPI_Comm` with its
`is_root` flag and its `sub_comms` child list in creation order
(`push_back` at otf2writer.cc:1301/1337). -/

/-- A communicator node: `is_root` flag plus children in creation order. -/
inductive CommTree where
  | node (is_root : Bool) (sub_comms : List CommTree)

/-- A communicator node after the assign pass, carrying its resolved
`global_id`. -/
inductive IdTree where
  | node (global_id : Int) (sub_comms : List IdTree)

/-- Modelled from the spec: `global_id_assigner` (declared in otf2writer.h,
which is not part of the sources) per §4.3 — a current tree coordinate
maintained as a stack of child indices, a shared sequential counter, and the
agreed enumeration as a coordinate-keyed table.  `add_level` pushes a fresh
level (so that the first `advance_sub_comm` yields child index 0),
`advance_sub_comm` steps to the next sibling, `assign_current` records the
current coordinate under the next sequential identifier. -/
structure global_id_assigner where
  stack : List Int
  next_id : Int
  assigned : List (List Int × Int)
deriving DecidableEq, Repr

/-- Advance the innermost child index (shared by assigner and `tree_id`). -/
def bump : List Int → List Int
  | [] => []
  | i :: st => (i + 1) :: st

def add_level (a : global_id_assigner) : global_id_assigner :=
  { a with stack := -1 :: a.stack }

def advance_sub_comm (a : global_id_assigner) : global_id_assigner :=
  { a with stack := bump a.stack }

def remove_level (a : global_id_assigner) : global_id_assigner :=
  { a with stack := a.stack.tail }

/-- The coordinate currently designated by the assigner's stack. -/
def coordOf (stack : List Int) : List Int := stack.reverse

def assign_current (a : global_id_assigner) : global_id_assigner :=
  { a with
      assigned := a.assigned ++ [(coordOf a.stack, a.next_id)],
      next_id := a.next_id + 1 }

/-- Modelled from the spec: `tree_id` (declared in otf2writer.h, not in the
sources) per §4.3 — the path-of-child-indices coordinate of the node the
assign pass is visiting, with the same level operations as the assigner. -/
structure tree_id where
  stack : List Int
deriving DecidableEq, Repr

def tid_add_level (l : tree_id) : tree_id := ⟨-1 :: l.stack⟩

def tid_advance (l : tree_id) : tree_id := ⟨bump l.stack⟩

def tid_remove_level (l : tree_id) : tree_id := ⟨l.stack.tail⟩

/-- Look up a coordinate in the agreed enumeration (the table filled by
`assign_current`). -/
def lookupId (g : global_id_assigner) (c : List Int) : Int :=
  ((g.assigned.find? (fun p => p.1 == c)).map Prod.snd).getD (-1)

/-- Modelled from the spec: `global_id_assigner::get_id` — resolve, in the
agreed enumeration, the identifier recorded for the coordinate of the local
node (`int id = global_ids.get_id(local_ids)` at otf2writer.cc:1265). -/
def get_id (g : global_id_assigner) (l : tree_id) : Int :=
  lookupId g (coordOf l.stack)

/-- The agree pass over a sibling list (otf2writer.cc:1216-1238), merging the
list overload (advance before each child) and the node overload (assign when
`is_root`, then descend — with the `sub_comms.empty()` early return — wrapping
the child walk in `add_level`/`remove_level`). -/
def agree_each : List CommTree → global_id_assigner → global_id_assigner
  | [], a => a
  | .node is_root subs :: ts, a =>
    let a1 := advance_sub_comm a
    let a2 := if is_root then assign_current a1 else a1
    let a3 :=
      if subs.isEmpty then a2
      else remove_level (agree_each subs (add_level a2))
    agree_each ts a3

/-- `OTF2_Writer::agree_global_ids(global_id_assigner&)`
(otf2writer.cc:1240-1245): walk WORLD's sub-communicator list. -/
def agree_global_ids (worldSubs : List CommTree) (a : global_id_assigner) :
    global_id_assigner :=
  remove_level (agree_each worldSubs (add_level a))

/-- The assign pass over a sibling list (otf2writer.cc:1247-1271), merging the
list overload and the node overload exactly as `agree_each`; returns the
annotated forest together with the threaded `tree_id`. -/
def assign_each : List CommTree → global_id_assigner → tree_id → List IdTree × tree_id
  | [], _, l => ([], l)
  | .node _ subs :: ts, g, l =>
    let l1 := tid_advance l
    let id := get_id g l1
    let sub :=
      if subs.isEmpty then (([] : List IdTree), l1)
      else
        let si := assign_each subs g (tid_add_level l1)
        (si.1, tid_remove_level si.2)
    let rest := assign_each ts g sub.2
    (.node id sub.1 :: rest.1, rest.2)

/-- `OTF2_Writer::assign_global_ids(const global_id_assigner&)`
(otf2writer.cc:1273-1279): a fresh default `tree_id`, then the walk of WORLD's
sub-communicator list. -/
def assign_global_ids (worldSubs : List CommTree) (g : global_id_assigner) :
    List IdTree :=
  (assign_each worldSubs g (tid_add_level ⟨[]⟩)).1

/-- Canonical structural enumeration of a forest: the depth-first visit order
shared by both passes (node before children, children in creation order),
listing each node's coordinate and its `is_root` flag.  The stack operations
mirror `advance_sub_comm`/`add_level` exactly. -/
def visitList : List CommTree → List Int → List (List Int × Bool)
  | [], _ => []
  | .node is_root subs :: ts, stk =>
    (coordOf (bump stk), is_root) ::
      (visitList subs (-1 :: bump stk) ++ visitList ts (bump stk))

/-- The forest with every `is_root` flag erased: its pure tree structure. -/
def stripList : List CommTree → List CommTree
  | [] => []
  | .node _ subs :: ts => .node false (stripList subs) :: stripList ts

/-- Depth-first flattening of the ids assigned to a forest. -/
def flattenIds : List IdTree → List Int
  | [] => []
  | .node id subs :: ts => id :: (flattenIds subs ++ flattenIds ts)

/-- Coordinates of the `is_root` nodes of an enumeration, in visit order. -/
def rootsOf : List (List Int × Bool) → List (List Int)
  | [] => []
  | (c, b) :: l => if b then c :: rootsOf l else rootsOf l

/-- Pair a coordinate list with sequential identifiers starting at `n`. -/
def withIds : List (List Int) → Int → List (List Int × Int)
  | [], _ => []
  | c :: cs, n => (c, n) :: withIds cs (n + 1)

/-- `bump` iterated. -/
def bumpN : Nat → List Int → List Int
  | 0, stk => stk
  | n + 1, stk => bumpN n (bump stk)

/-- The ids on which the `mpi_waitall` loop invokes `complete_call`, in
invocation order: the projection of the loop at otf2writer.cc:820-827 (same
null-sentinel skip and `called`-set deduplication). -/
def waitallCalls (nullReq : Int) : List Int → List Int → List Int
  | [], _ => []
  | r :: rest, called =>
    if r != nullReq && !(called.contains r) then
      r :: waitallCalls nullReq rest (r :: called)
    else
      waitallCalls nullReq rest called

/-! ## Concrete fixtures used by witnesses and evaluation theorems -/

/-- Rank 0, null sentinel 0, one registered datatype (handle 3, 8 bytes),
nothing pending. -/
def exState : WriterState :=
  ⟨0, 100, 0, 0, 0, [], [], [(3, 8)], [], [], []⟩

/-- Like `exState`, with request 1 pending as an ISEND. -/
def exPending : WriterState :=
  ⟨0, 100, 0, 0, 0, [(1, .ISEND)], [], [(3, 8)], [], [], []⟩

/-- Like `exState`, with communicator 1 recorded with `local_group_id = 5`. -/
def exMismatch : WriterState :=
  ⟨0, 100, 0, 0, 0, [], [], [(3, 8)], [(1, ⟨1, 0, 5, "comm1", false⟩)], [], []⟩

/-- A communicator forest as rank 0 sees it: rank 0 is root of the first
sub-communicator only. -/
def exTreeA : List CommTree :=
  [.node true [.node false []], .node false []]

/-- The same forest shape as another rank sees it: that rank is root of the
nested and of the second sub-communicator. -/
def exTreeB : List CommTree :=
  [.node false [.node true []], .node true []]

/-- A fresh assigner (empty coordinate stack, counter 0, empty table). -/
def exAssigner : global_id_assigner :=
  ⟨[], 0, []⟩

/-- An agreed enumeration covering the three coordinates of `exTreeA` /
`exTreeB`. -/
def exTable : global_id_assigner :=
  ⟨[], 3, [([0], 7), ([0, 0], 9), ([1], 11)]⟩

/-! ## Association-list lemmas -/

theorem mfind_append {α : Type} (m1 m2 : List (Int × α)) (k : Int) :
    mfind (m1 ++ m2) k = ((mfind m1 k).rec (mfind m2 k) fun v => some v) := by
  induction m1 with
  | nil => rfl
  | cons p rest ih =>
    obtain ⟨k', v⟩ := p
    by_cases hp : k' = k <;> simp [mfind, hp, ih]

theorem mfind_merase_self {α : Type} (m : List (Int × α)) (k : Int) :
    mfind (merase m k) k = none := by
  induction m with
  | nil => rfl
  | cons p rest ih =>
    obtain ⟨k', v⟩ := p
    by_cases hp : k' = k <;> simp [merase, mfind, hp, ih]

theorem mfind_merase_ne {α : Type} (m : List (Int × α)) (k k' : Int)
    (h : k' ≠ k) : mfind (merase m k) k' = mfind m k' := by
  have hkk : ¬(k = k') := by omega
  have hk'k : ¬(k' = k) := by omega
  induction m with
  | nil => rfl
  | cons p rest ih =>
    obtain ⟨q, v⟩ := p
    by_cases hq : q = k
    · simp [merase, mfind, hq, hkk, ih]
    · by_cases hq' : q = k' <;> simp [merase, mfind, hq, hq', hk'k, ih]

theorem mfind_minsert_self {α : Type} (m : List (Int × α)) (k : Int) (v : α) :
    mfind (minsert m k v) k = some v := by
  simp [minsert, mfind_append, mfind_merase_self, mfind]

theorem mfind_minsert_ne {α : Type} (m : List (Int × α)) (k : Int) (v : α)
    (k' : Int) (h : k' ≠ k) : mfind (minsert m k v) k' = mfind m k' := by
  rw [minsert, mfind_append, mfind_merase_ne m k k' h]
  rcases hf : mfind m k' with _ | w
  · simp only [mfind]
    rw [if_neg (by omega)]
  · rfl

/-! ## `_ENTER` / `_LEAVE` bookkeeping only touches non-tracker fields -/

@[simp] theorem enterUpd_null_request (s : WriterState) (n : String) (a b : Int) :
    (enterUpd s n a b).1.null_request = s.null_request := rfl

@[simp] theorem enterUpd_request_type (s : WriterState) (n : String) (a b : Int) :
    (enterUpd s n a b).1.request_type = s.request_type := rfl

@[simp] theorem enterUpd_irecv_requests (s : WriterState) (n : String) (a b : Int) :
    (enterUpd s n a b).1.irecv_requests = s.irecv_requests := rfl

@[simp] theorem enterUpd_type_sizes (s : WriterState) (n : String) (a b : Int) :
    (enterUpd s n a b).1.type_sizes = s.type_sizes := rfl

@[simp] theorem leaveUpd_null_request (s : WriterState) (b : Int) (rg : Nat) :
    (leaveUpd s b rg).null_request = s.null_request := rfl

@[simp] theorem leaveUpd_request_type (s : WriterState) (b : Int) (rg : Nat) :
    (leaveUpd s b rg).request_type = s.request_type := rfl

/-! ## C1 -/

/-- C1: `complete_call` on a request id that is not currently tracked is a
silent no-op leaving the whole writer state unchanged when the id equals the
registered null-request sentinel — for every prior state — and aborts the run
(modelled as `none`) when the id is not the sentinel. -/
theorem C1_complete_untracked (s : WriterState) (r t : Int)
    (h : mfind s.request_type r = none) :
    complete_call s r t = if r = s.null_request then some s else none := by
  unfold complete_call
  rw [h]
  by_cases hr : r = s.null_request <;> simp [hr]

/-- Witness for C1 at a concrete untracked id (5, non-null) in `exState`. -/
theorem C1_complete_untracked_witness :
    mfind exState.request_type 5 = none ∧
      complete_call exState 5 9 =
        if (5 : Int) = exState.null_request then some exState else none :=
  ⟨rfl, C1_complete_untracked exState 5 9 rfl⟩

/-! ## C8 -/

/-- C8: computing a byte count for an unregistered datatype handle is
recoverable — `count_bytes` falls back to 4 bytes per element, returning
`4 * count`; the function is total (it returns a value for every input and
has no aborting branch, the condition is only logged in the source). -/
theorem C8_count_bytes_default (sizes : List (Int × Int)) (type count : Int)
    (h : mfind sizes type = none) :
    count_bytes sizes type count = 4 * count := by
  unfold count_bytes
  rw [h]

/-- Witness for C8: handle 5 is unregistered in `exState`'s table. -/
theorem C8_count_bytes_default_witness :
    mfind exState.type_sizes 5 = none ∧
      count_bytes exState.type_sizes 5 7 = 4 * 7 :=
  ⟨rfl, C8_count_bytes_default exState.type_sizes 5 7 rfl⟩

/-! ## C3 -/

/-- C3 (divergence witness): in `mpi_bcast` the claimed volume formula is
evaluated against the `get_world_rank` / `get_comm_size` `//TODO` stubs, which
return 0 for every input.  First conjunct: for every state and argument list
the emitted collective-end record carries `sent = 0` (never
`bytes * comm_size`) and `received = count_bytes(type, count)`.  Second
conjunct: the claim's own scenario — type size 8, count 10, on the rank the
code takes for root — yields `sent = 0`, `received = 80`, not `sent = 320`. -/
theorem C3_bcast_sent_always_zero :
    (∀ (s : WriterState) (start stop count type root comm : Int),
      ∃ region,
        (mpi_bcast s start stop count type root comm).events =
          s.events ++
            [.Enter start region, .MpiCollectiveBegin start,
             .MpiCollectiveEnd stop OTF2_COLLECTIVE_OP_BCAST comm root 0
               (count_bytes s.type_sizes type count),
             .Leave stop region]) ∧
      (mpi_bcast exState 10 20 10 3 0 42).events =
        [.Enter 10 0, .MpiCollectiveBegin 10,
         .MpiCollectiveEnd 20 OTF2_COLLECTIVE_OP_BCAST 42 0 0 80,
         .Leave 20 0] := by
  constructor
  · intro s start stop count type root comm
    refine ⟨(enterUpd s "MPI_Bcast" start stop).2, ?_⟩
    simp [mpi_bcast, enterUpd, leaveUpd, get_world_rank, get_comm_size, mul_zero]
  · rfl

/-! ## C6 -/

/-- C6 (divergence witness): the group-consistency check of `mpi_comm_group`
is dead code — `_LEAVE()` returns `OTF2_WRITER_SUCCESS` unconditionally before
the check is reached, so the fatal mismatch error is never raised.  First
conjunct: the call succeeds for every state and every (comm, group) pair.
Second and third conjuncts: a concrete mismatched input (`local_group_id` 5
recorded for communicator 1, group 7 supplied) on which the call still
succeeds. -/
theorem C6_comm_group_check_unreachable :
    (∀ (s : WriterState) (start stop comm group : Int),
      ∃ s1, mpi_comm_group s start stop comm group = .success s1) ∧
      ((mfind exMismatch.comms 1).getD ⟨0, 0, 0, "", false⟩).local_group_id ≠ 7 ∧
      mpi_comm_group exMismatch 10 20 1 7 =
        .success (leaveUpd (enterUpd exMismatch "MPI_Comm_group" 10 20).1 20
          (enterUpd exMismatch "MPI_Comm_group" 10 20).2) := by
  refine ⟨fun s start stop comm group => ⟨_, rfl⟩, by decide, rfl⟩

/-! ## C7 -/

/-- C7 (divergence witness): on the claim's own example —
`parent = [0,1,2,3,4]`, sorted excluded indices `[1,3]` — the exclusion loop
dereferences the `std::set` iterator after it has reached `end()` (an
out-of-bounds read, reported by the `true` flag), and the resulting
membership depends on the indeterminate value of that read: it is `[0,2,4]`
only when the junk value differs from the final index 4, and `[0,2,0]` when
it happens to equal 4. -/
theorem C7_group_excl_oob_read :
    mpi_group_excl_first_pass 0 [0, 1, 2, 3, 4] [1, 3] = ([0, 2, 4], true) ∧
      mpi_group_excl_first_pass 4 [0, 1, 2, 3, 4] [1, 3] = ([0, 2, 0], true) := by
  constructor <;> rfl

/-! ## Request-tracker lemmas shared by C4, C5, C9 and C10 -/

theorem mpi_irecv_fields (s : WriterState)
    (start stop type count source comm tag r : Int) (h : r ≠ s.null_request) :
    (mpi_irecv s start stop type count source comm tag r).request_type
        = minsert s.request_type r .IRECV ∧
      (mpi_irecv s start stop type count source comm tag r).irecv_requests
        = minsert s.irecv_requests r
            ⟨count_bytes s.type_sizes type count, source, tag, comm, r⟩ ∧
      (mpi_irecv s start stop type count source comm tag r).null_request
        = s.null_request := by
  unfold mpi_irecv enterUpd leaveUpd incomplete_call
  simp [h]

theorem complete_call_isend (s : WriterState) (r t : Int)
    (h : mfind s.request_type r = some .ISEND) :
    complete_call s r t = some
      { s with
          events := s.events ++ [.MpiIsendComplete t r],
          event_count := s.event_count + 1,
          request_type := merase s.request_type r } := by
  unfold complete_call
  rw [h]

theorem complete_call_untracked_abort (s : WriterState) (r t : Int)
    (h1 : mfind s.request_type r = none) (h2 : r ≠ s.null_request) :
    complete_call s r t = none := by
  unfold complete_call
  rw [h1]
  simp [h2]

theorem complete_call_null_request (s s2 : WriterState) (r t : Int)
    (h : complete_call s r t = some s2) : s2.null_request = s.null_request := by
  unfold complete_call at h
  rcases hf : mfind s.request_type r with _ | ty
  · rw [hf] at h
    by_cases hr : r = s.null_request
    · simp [hr] at h
      rw [← h]
    · simp [hr] at h
  · rw [hf] at h
    cases ty
    · simp at h
      rw [← h]
    · rcases hg : mfind s.irecv_requests r with _ | cap
      · rw [hg] at h
        simp at h
      · rw [hg] at h
        simp at h
        rw [← h]

/-! ## C4 -/

/-- C4: a completed Irecv request emits a receive record whose source,
communicator, tag and byte count all come from the payload captured at the
`mpi_irecv` post call — the byte count is `count_bytes(type, count)` of the
post arguments.  (The completing call cannot contribute any of these values:
`complete_call` receives only the request id and a timestamp.) -/
theorem C4_irecv_payload_from_post (s : WriterState)
    (start stop type count source comm tag r ts : Int)
    (h : r ≠ s.null_request) :
    ∃ s2,
      complete_call (mpi_irecv s start stop type count source comm tag r) r ts
          = some s2 ∧
        s2.events = (mpi_irecv s start stop type count source comm tag r).events
          ++ [.MpiIrecv ts source comm tag (count_bytes s.type_sizes type count) r] := by
  obtain ⟨h1, h2, h3⟩ := mpi_irecv_fields s start stop type count source comm tag r h
  have hA : mfind (mpi_irecv s start stop type count source comm tag r).request_type r
      = some .IRECV := by
    rw [h1]; exact mfind_minsert_self _ _ _
  have hB : mfind (mpi_irecv s start stop type count source comm tag r).irecv_requests r
      = some ⟨count_bytes s.type_sizes type count, source, tag, comm, r⟩ := by
    rw [h2]; exact mfind_minsert_self _ _ _
  have hcomp :
      complete_call (mpi_irecv s start stop type count source comm tag r) r ts
        = some { mpi_irecv s start stop type count source comm tag r with
            events := (mpi_irecv s start stop type count source comm tag r).events
              ++ [.MpiIrecv ts source comm tag (count_bytes s.type_sizes type count) r],
            event_count :=
              (mpi_irecv s start stop type count source comm tag r).event_count + 1,
            irecv_requests :=
              merase (mpi_irecv s start stop type count source comm tag r).irecv_requests r,
            request_type :=
              merase (mpi_irecv s start stop type count source comm tag r).request_type r } := by
    simp only [complete_call, hA, hB]
  exact ⟨_, hcomp, rfl⟩

/-- Witness for C4: post request 1 (type 3 of size 8, count 10 → 80 bytes)
on `exState` and complete it. -/
theorem C4_irecv_payload_from_post_witness :
    (1 : Int) ≠ exState.null_request ∧
      ∃ s2,
        complete_call (mpi_irecv exState 10 20 3 10 4 42 17 1) 1 30 = some s2 ∧
          s2.events = (mpi_irecv exState 10 20 3 10 4 42 17 1).events
            ++ [.MpiIrecv 30 4 42 17 (count_bytes exState.type_sizes 3 10) 1] :=
  ⟨by decide, C4_irecv_payload_from_post exState 10 20 3 10 4 42 17 1 30 (by decide)⟩

/-! ## C10 -/

/-- C10: re-posting a non-null request id that is already pending (with any
kind `k0`) is silently accepted: `mpi_irecv` overwrites both the tracked kind
(now IRECV) and the captured payload with the new post's values — no error
path exists, `mpi_irecv` is a total function — and a later single completion
emits the payload of the most recent post. -/
theorem C10_repost_overwrites (s : WriterState) (k0 : REQUEST_TYPE)
    (start stop type count source comm tag r ts : Int)
    (h1 : r ≠ s.null_request) (h2 : mfind s.request_type r = some k0) :
    mfind (mpi_irecv s start stop type count source comm tag r).request_type r
        = some .IRECV ∧
      mfind (mpi_irecv s start stop type count source comm tag r).irecv_requests r
        = some ⟨count_bytes s.type_sizes type count, source, tag, comm, r⟩ ∧
      ∃ s2,
        complete_call (mpi_irecv s start stop type count source comm tag r) r ts
            = some s2 ∧
          s2.events = (mpi_irecv s start stop type count source comm tag r).events
            ++ [.MpiIrecv ts source comm tag (count_bytes s.type_sizes type count) r] := by
  obtain ⟨g1, g2, g3⟩ := mpi_irecv_fields s start stop type count source comm tag r h1
  have hA : mfind (mpi_irecv s start stop type count source comm tag r).request_type r
      = some .IRECV := by
    rw [g1]; exact mfind_minsert_self _ _ _
  have hB : mfind (mpi_irecv s start stop type count source comm tag r).irecv_requests r
      = some ⟨count_bytes s.type_sizes type count, source, tag, comm, r⟩ := by
    rw [g2]; exact mfind_minsert_self _ _ _
  have hcomp :
      complete_call (mpi_irecv s start stop type count source comm tag r) r ts
        = some { mpi_irecv s start stop type count source comm tag r with
            events := (mpi_irecv s start stop type count source comm tag r).events
              ++ [.MpiIrecv ts source comm tag (count_bytes s.type_sizes type count) r],
            event_count :=
              (mpi_irecv s start stop type count source comm tag r).event_count + 1,
            irecv_requests :=
              merase (mpi_irecv s start stop type count source comm tag r).irecv_requests r,
            request_type :=
              merase (mpi_irecv s start stop type count source comm tag r).request_type r } := by
    simp only [complete_call, hA, hB]
  exact ⟨hA, hB, _, hcomp, rfl⟩

/-- Witness for C10: request 1 is pending as ISEND in `exPending`; a second
post as Irecv overwrites kind and payload, and completion emits the new
payload. -/
theorem C10_repost_overwrites_witness :
    (1 : Int) ≠ exPending.null_request ∧
      mfind exPending.request_type 1 = some .ISEND ∧
      (mfind (mpi_irecv exPending 10 20 3 10 4 42 17 1).request_type 1
          = some .IRECV ∧
        mfind (mpi_irecv exPending 10 20 3 10 4 42 17 1).irecv_requests 1
          = some ⟨count_bytes exPending.type_sizes 3 10, 4, 17, 42, 1⟩ ∧
        ∃ s2,
          complete_call (mpi_irecv exPending 10 20 3 10 4 42 17 1) 1 30 = some s2 ∧
            s2.events = (mpi_irecv exPending 10 20 3 10 4 42 17 1).events
              ++ [.MpiIrecv 30 4 42 17 (count_bytes exPending.type_sizes 3 10) 1]) :=
  ⟨by decide, by decide,
    C10_repost_overwrites exPending .ISEND 10 20 3 10 4 42 17 1 30 (by decide) (by decide)⟩

/-! ## C9 -/

theorem completeMany_twice_abort (s1 : WriterState) (start r : Int)
    (h1 : r ≠ s1.null_request) (h2 : mfind s1.request_type r = some .ISEND) :
    completeMany start s1 [r, r] = none := by
  have hc := complete_call_isend s1 r start h2
  have hnone : mfind (merase s1.request_type r) r = none := mfind_merase_self _ _
  have habort :
      complete_call
        { s1 with
            events := s1.events ++ [.MpiIsendComplete start r],
            event_count := s1.event_count + 1,
            request_type := merase s1.request_type r } r start = none :=
    complete_call_untracked_abort _ r start hnone h1
  simp [completeMany, hc, habort]

/-- C9: unlike `mpi_waitall`, the batch variants `mpi_testall`,
`mpi_waitsome` and `mpi_testsome` perform no deduplication of repeated
request ids within one call: over the array `[r, r]` with a live (posted,
non-null) id `r`, the second completion attempt finds the id already removed
from the tracker and aborts the run, while `mpi_waitall` on the very same
array succeeds. -/
theorem C9_batch_variants_no_dedup (s : WriterState) (start stop r : Int)
    (h1 : r ≠ s.null_request) (h2 : mfind s.request_type r = some .ISEND) :
    mpi_testall s start stop 2 [r, r] true = none ∧
      mpi_waitsome s start stop [r, r] 2 [0, 1] = none ∧
      mpi_testsome s start stop [r, r] 2 [0, 1] = none ∧
      ∃ s2, mpi_waitall s start stop 2 [r, r] = some s2 := by
  refine ⟨?_, ?_, ?_, ?_⟩
  · unfold mpi_testall
    have := completeMany_twice_abort (enterUpd s "MPI_Testall" start stop).1 start r
      (by simpa using h1) (by simpa using h2)
    simp [this]
  · unfold mpi_waitsome
    have := completeMany_twice_abort (enterUpd s "MPI_Waitsome" start stop).1 start r
      (by simpa using h1) (by simpa using h2)
    simpa using this
  · unfold mpi_testsome
    have := completeMany_twice_abort (enterUpd s "MPI_Testsome" start stop).1 start r
      (by simpa using h1) (by simpa using h2)
    simpa using this
  · unfold mpi_waitall
    have hc := complete_call_isend (enterUpd s "MPI_Waitall" start stop).1 r start
      (by simpa using h2)
    have h1e : r ≠ (enterUpd s "MPI_Waitall" start stop).1.null_request := by
      simpa using h1
    simp [waitallLoop, h1e, hc]
    rw [if_neg h1]
    exact ⟨_, _, rfl, rfl⟩

/-! ## C5 -/

theorem waitallLoop_eq (start : Int) :
    ∀ (reqs : List Int) (s : WriterState) (called : List Int),
      waitallLoop start s reqs called
        = completeMany start s (waitallCalls s.null_request reqs called)
  | [], s, called => rfl
  | r :: rest, s, called => by
    by_cases hc : (r != s.null_request && !(called.contains r)) = true
    · rw [waitallLoop, waitallCalls, if_pos hc, if_pos hc]
      rcases hcc : complete_call s r start with _ | s2
      · simp [completeMany, hcc]
      · have hnull := complete_call_null_request s s2 r start hcc
        simp only [completeMany, hcc]
        rw [waitallLoop_eq start rest s2 (r :: called), hnull]
    · rw [waitallLoop, waitallCalls, if_neg hc, if_neg hc]
      exact waitallLoop_eq start rest s called

theorem waitallCalls_count (nullReq : Int) :
    ∀ (reqs called : List Int) (r : Int),
      (waitallCalls nullReq reqs called).count r
        = if r ≠ nullReq ∧ r ∈ reqs ∧ r ∉ called then 1 else 0
  | [], called, r => by simp [waitallCalls]
  | q :: rest, called, r => by
    have ih := waitallCalls_count nullReq rest
    by_cases hc : (q != nullReq && !(called.contains q)) = true
    · rw [waitallCalls, if_pos hc]
      have hq : q ≠ nullReq ∧ q ∉ called := by
        simpa using hc
      by_cases hrq : r = q
      · subst hrq
        rw [List.count_cons_self, ih (r :: called) r]
        simp [hq.1, hq.2]
      · rw [List.count_cons_of_ne (by simpa using hrq), ih (q :: called) r]
        by_cases h1 : r ≠ nullReq ∧ r ∈ rest ∧ r ∉ called
        · rw [if_pos ⟨h1.1, by simp [h1.2.1], by simp [hrq, h1.2.2]⟩,
            if_pos ⟨h1.1, by simp [hrq, h1.2.1], h1.2.2⟩]
        · rw [if_neg, if_neg]
          · intro hcon
            exact h1 ⟨hcon.1, by
              rcases List.mem_cons.mp hcon.2.1 with h | h
              · exact absurd h hrq
              · exact h, hcon.2.2⟩
          · intro hcon
            exact h1 ⟨hcon.1, hcon.2.1, fun hmem => hcon.2.2 (List.mem_cons_of_mem _ hmem)⟩
    · rw [waitallCalls, if_neg hc, ih called r]
      have hq : q = nullReq ∨ q ∈ called := by
        by_contra hcon
        push_neg at hcon
        exact hc (by simp [hcon.1, hcon.2])
      by_cases hrq : r = q
      · subst hrq
        by_cases h1 : r ≠ nullReq ∧ r ∈ rest ∧ r ∉ called
        · rw [if_pos h1, if_pos ⟨h1.1, by simp, h1.2.2⟩]
        · rw [if_neg h1, if_neg]
          intro hcon
          rcases hq with h | h
          · exact hcon.1 h
          · exact hcon.2.2 h
      · by_cases h1 : r ≠ nullReq ∧ r ∈ rest ∧ r ∉ called
        · rw [if_pos h1, if_pos ⟨h1.1, List.mem_cons_of_mem _ h1.2.1, h1.2.2⟩]
        · rw [if_neg h1, if_neg]
          intro hcon
          exact h1 ⟨hcon.1, by
            rcases List.mem_cons.mp hcon.2.1 with h | h
            · exact absurd h hrq
            · exact h, hcon.2.2⟩

/-- C5: within one `mpi_waitall` call, each distinct non-null request id of
the array is completed at most once.  First conjunct: `mpi_waitall` completes
exactly the id sequence `waitallCalls` (the projection of its loop).  Second
conjunct: in that sequence every non-null id occurring in the array appears
exactly once — repeated occurrences of a live id are completed once and
null-sentinel entries are skipped (count 0). -/
theorem C5_waitall_dedup (s : WriterState) (start stop : Int)
    (reqs : List Int) (r : Int) :
    mpi_waitall s start stop reqs.length reqs
        = (completeMany start (enterUpd s "MPI_Waitall" start stop).1
            (waitallCalls s.null_request reqs [])).map
          (fun s2 => leaveUpd s2 stop (enterUpd s "MPI_Waitall" start stop).2) ∧
      (waitallCalls s.null_request reqs []).count r
        = if r ≠ s.null_request ∧ r ∈ reqs then 1 else 0 := by
  constructor
  · simp only [mpi_waitall]
    rw [List.take_length,
      waitallLoop_eq start reqs (enterUpd s "MPI_Waitall" start stop).1 [],
      enterUpd_null_request]
  · rw [waitallCalls_count s.null_request reqs [] r]
    simp

/-- Witness for C9: request 1 pending as ISEND in `exPending`, array `[1,1]`. -/
theorem C9_batch_variants_no_dedup_witness :
    (1 : Int) ≠ exPending.null_request ∧
      mfind exPending.request_type 1 = some .ISEND ∧
      (mpi_testall exPending 10 20 2 [1, 1] true = none ∧
        mpi_waitsome exPending 10 20 [1, 1] 2 [0, 1] = none ∧
        mpi_testsome exPending 10 20 [1, 1] 2 [0, 1] = none ∧
        ∃ s2, mpi_waitall exPending 10 20 2 [1, 1] = some s2) :=
  ⟨by decide, by decide,
    C9_batch_variants_no_dedup exPending 10 20 1 (by decide) (by decide)⟩

/-! ## C2: two-pass global ID agreement -/

theorem bumpN_succ (n : Nat) (stk : List Int) :
    bumpN (n + 1) stk = bumpN n (bump stk) := rfl

theorem bumpN_cons (n : Nat) (i : Int) (st : List Int) :
    bumpN n (i :: st) = (i + n) :: st := by
  induction n generalizing i with
  | zero => simp [bumpN]
  | succ m ih =>
    rw [bumpN_succ]
    show bumpN m ((i + 1) :: st) = (i + (m + 1)) :: st
    rw [ih (i + 1)]
    congr 1
    omega

theorem rootsOf_nil : rootsOf [] = [] := rfl

theorem rootsOf_cons_true (c : List Int) (l : List (List Int × Bool)) :
    rootsOf ((c, true) :: l) = c :: rootsOf l := by
  simp [rootsOf]

theorem rootsOf_cons_false (c : List Int) (l : List (List Int × Bool)) :
    rootsOf ((c, false) :: l) = rootsOf l := by
  simp [rootsOf]

theorem rootsOf_append (l1 l2 : List (List Int × Bool)) :
    rootsOf (l1 ++ l2) = rootsOf l1 ++ rootsOf l2 := by
  induction l1 with
  | nil => simp [rootsOf]
  | cons p rest ih =>
    obtain ⟨c, b⟩ := p
    cases b <;> simp [rootsOf, ih]

theorem withIds_append (xs ys : List (List Int)) (n : Int) :
    withIds (xs ++ ys) n = withIds xs n ++ withIds ys (n + xs.length) := by
  induction xs generalizing n with
  | nil => simp [withIds]
  | cons c cs ih =>
    simp only [List.cons_append, withIds, List.length_cons, List.append_eq]
    rw [ih (n + 1)]
    push_cast
    have h : n + 1 + (cs.length : Int) = n + ((cs.length : Int) + 1) := by ring
    rw [h]

theorem agree_each_nil (a : global_id_assigner) : agree_each [] a = a := by
  rw [agree_each]

theorem agree_each_cons (is_root : Bool) (subs ts : List CommTree)
    (a : global_id_assigner) :
    agree_each (.node is_root subs :: ts) a =
      agree_each ts
        (if subs.isEmpty then
          (if is_root then assign_current (advance_sub_comm a) else advance_sub_comm a)
        else
          remove_level (agree_each subs (add_level
            (if is_root then assign_current (advance_sub_comm a)
             else advance_sub_comm a)))) := by
  rw [agree_each]

theorem visitList_nil (stk : List Int) : visitList [] stk = [] := by
  rw [visitList]

theorem visitList_cons (r : Bool) (subs ts : List CommTree) (stk : List Int) :
    visitList (.node r subs :: ts) stk =
      (coordOf (bump stk), r) ::
        (visitList subs (-1 :: bump stk) ++ visitList ts (bump stk)) := by
  rw [visitList]

/-- Two assigners with equal fields are equal. -/
theorem assigner_eq {s1 s2 : List Int} {n1 n2 : Int}
    {a1 a2 : List (List Int × Int)} (hs : s1 = s2) (hn : n1 = n2)
    (ha : a1 = a2) :
    (⟨s1, n1, a1⟩ : global_id_assigner) = ⟨s2, n2, a2⟩ := by
  subst hs; subst hn; subst ha; rfl

/-- Characterization of the agree pass: starting from any assigner, walking a
sibling list advances the top stack level by the list length and appends to
the table exactly the coordinates of the `is_root`-flagged nodes, in the
canonical depth-first order `visitList`, paired with sequential identifiers
drawn from the shared counter. -/
theorem agree_each_spec : ∀ (ts : List CommTree) (a : global_id_assigner),
    agree_each ts a =
      ⟨bumpN ts.length a.stack,
        a.next_id + ((rootsOf (visitList ts a.stack)).length : Int),
        a.assigned ++ withIds (rootsOf (visitList ts a.stack)) a.next_id⟩
  | [], a => by
    rw [agree_each_nil, visitList_nil]
    simp [bumpN, rootsOf, withIds]
  | .node is_root subs :: ts, a => by
    have ihs := agree_each_spec subs
    have iht := agree_each_spec ts
    obtain ⟨stk, n, asg⟩ := a
    rw [agree_each_cons, visitList_cons]
    by_cases hsub : subs = []
    · subst hsub
      rw [visitList_nil]
      cases is_root
      · simp only [List.isEmpty_nil, if_true, Bool.false_eq_true, if_false,
          iht, advance_sub_comm]
        apply assigner_eq
        · simp [List.length_cons, bumpN_succ]
        · simp [rootsOf_cons_false, List.nil_append]
        · simp [rootsOf_cons_false, List.nil_append]
      · simp only [List.isEmpty_nil, if_true, iht, assign_current, advance_sub_comm]
        apply assigner_eq
        · simp [List.length_cons, bumpN_succ]
        · simp only [rootsOf_cons_true, List.nil_append, List.length_cons]
          push_cast
          ring
        · simp only [rootsOf_cons_true, List.nil_append, withIds,
            List.append_assoc, List.singleton_append]
    · have hne : subs.isEmpty = false := by
        cases subs
        · exact absurd rfl hsub
        · rfl
      cases is_root
      · simp only [hne, Bool.false_eq_true, if_false, ihs, iht,
          advance_sub_comm, add_level, remove_level, bumpN_cons, List.tail_cons]
        apply assigner_eq
        · simp [List.length_cons, bumpN_succ]
        · simp only [rootsOf_cons_false, rootsOf_append, List.length_append]
          push_cast
          ring
        · simp only [rootsOf_cons_false, rootsOf_append, withIds_append,
            List.append_assoc]
      · simp only [hne, if_true, Bool.false_eq_true, if_false, ihs, iht,
          assign_current, advance_sub_comm, add_level, remove_level,
          bumpN_cons, List.tail_cons]
        apply assigner_eq
        · simp [List.length_cons, bumpN_succ]
        · simp only [rootsOf_cons_true, rootsOf_append, List.length_append,
            List.length_cons]
          push_cast
          ring
        · simp only [rootsOf_cons_true, rootsOf_append, withIds, withIds_append,
            List.append_assoc, List.singleton_append, List.cons_append,
            List.nil_append]

theorem assign_each_nil (g : global_id_assigner) (l : tree_id) :
    assign_each [] g l = ([], l) := by
  rw [assign_each]

theorem assign_each_cons_nil (is_root : Bool) (ts : List CommTree)
    (g : global_id_assigner) (l : tree_id) :
    assign_each (.node is_root [] :: ts) g l =
      ((.node (get_id g (tid_advance l)) []) :: (assign_each ts g (tid_advance l)).1,
        (assign_each ts g (tid_advance l)).2) := by
  rw [assign_each]
  simp

theorem assign_each_cons_ne (is_root : Bool) (subs ts : List CommTree)
    (g : global_id_assigner) (l : tree_id) (h : subs.isEmpty = false) :
    assign_each (.node is_root subs :: ts) g l =
      ((.node (get_id g (tid_advance l))
          (assign_each subs g (tid_add_level (tid_advance l))).1) ::
        (assign_each ts g (tid_remove_level
          (assign_each subs g (tid_add_level (tid_advance l))).2)).1,
        (assign_each ts g (tid_remove_level
          (assign_each subs g (tid_add_level (tid_advance l))).2)).2) := by
  rw [assign_each]
  simp [h]

theorem flattenIds_nil : flattenIds [] = [] := by
  rw [flattenIds]

theorem flattenIds_cons (id : Int) (subs ts : List IdTree) :
    flattenIds (.node id subs :: ts) = id :: (flattenIds subs ++ flattenIds ts) := by
  rw [flattenIds]

theorem stripList_nil : stripList [] = [] := by
  rw [stripList]

theorem stripList_cons (r : Bool) (subs ts : List CommTree) :
    stripList (.node r subs :: ts)
      = .node false (stripList subs) :: stripList ts := by
  rw [stripList]

/-- Characterization of the assign pass: the `tree_id` is threaded exactly as
the agree pass threads the assigner stack, and the ids written into the forest
are, in the same canonical depth-first order `visitList`, the agreed table's
entries at the visited coordinates — the `is_root` flags are never consulted. -/
theorem assign_each_spec : ∀ (ts : List CommTree) (g : global_id_assigner) (l : tree_id),
    (assign_each ts g l).2 = ⟨bumpN ts.length l.stack⟩ ∧
      flattenIds (assign_each ts g l).1 =
        (visitList ts l.stack).map (fun p => lookupId g p.1)
  | [], g, l => by
    rw [assign_each_nil, visitList_nil]
    exact ⟨rfl, by rw [flattenIds_nil]; rfl⟩
  | .node is_root subs :: ts, g, l => by
    have ihs := assign_each_spec subs
    have iht := assign_each_spec ts
    obtain ⟨stk⟩ := l
    rw [visitList_cons]
    by_cases hsub : subs = []
    · subst hsub
      rw [assign_each_cons_nil, visitList_nil]
      have h2 := iht g (tid_advance ⟨stk⟩)
      constructor
      · rw [h2.1]
        simp [tid_advance, List.length_cons, bumpN_succ]
      · rw [flattenIds_cons, flattenIds_nil, h2.2]
        simp [tid_advance, get_id]
    · have hne : subs.isEmpty = false := by
        cases subs
        · exact absurd rfl hsub
        · rfl
      rw [assign_each_cons_ne is_root subs ts g ⟨stk⟩ hne]
      have h1 := ihs g (tid_add_level (tid_advance ⟨stk⟩))
      have hinner2 :
          tid_remove_level (assign_each subs g (tid_add_level (tid_advance ⟨stk⟩))).2
            = ⟨bump stk⟩ := by
        rw [h1.1]
        simp [tid_add_level, tid_advance, tid_remove_level, bumpN_cons]
      have h2 := iht g (tid_remove_level
        (assign_each subs g (tid_add_level (tid_advance ⟨stk⟩))).2)
      constructor
      · rw [h2.1, hinner2]
        simp [List.length_cons, bumpN_succ]
      · rw [flattenIds_cons, h1.2, h2.2, hinner2]
        simp [tid_advance, tid_add_level, get_id, List.map_append]

/-- The assign pass never reads the `is_root` flags: running it on the
flag-erased forest gives the identical result. -/
theorem assign_each_strip : ∀ (ts : List CommTree) (g : global_id_assigner) (l : tree_id),
    assign_each ts g l = assign_each (stripList ts) g l
  | [], g, l => by rw [stripList_nil]
  | .node r subs :: ts, g, l => by
    have ihs := assign_each_strip subs
    have iht := assign_each_strip ts
    rw [stripList_cons]
    by_cases hsub : subs = []
    · subst hsub
      rw [stripList_nil, assign_each_cons_nil, assign_each_cons_nil,
        ← iht g (tid_advance l)]
    · have hne : subs.isEmpty = false := by
        cases subs
        · exact absurd rfl hsub
        · rfl
      have hne2 : (stripList subs).isEmpty = false := by
        rcases subs with _ | ⟨t, rest⟩
        · exact absurd rfl hsub
        · cases t
          rw [stripList_cons]
          rfl
      rw [assign_each_cons_ne r subs ts g l hne,
        assign_each_cons_ne false (stripList subs) (stripList ts) g l hne2,
        ← ihs g (tid_add_level (tid_advance l)),
        ← iht g (tid_remove_level (assign_each subs g (tid_add_level (tid_advance l))).2)]

/-- The coordinate component of the canonical enumeration is a pure function
of the tree structure: erasing all `is_root` flags leaves it unchanged. -/
theorem visitList_strip : ∀ (ts : List CommTree) (stk : List Int),
    (visitList ts stk).map Prod.fst = (visitList (stripList ts) stk).map Prod.fst
  | [], stk => by rw [stripList_nil]
  | .node r subs :: ts, stk => by
    have ihs := visitList_strip subs
    have iht := visitList_strip ts
    rw [stripList_cons, visitList_cons, visitList_cons]
    simp only [List.map_cons, List.map_append, ihs, iht]

/-- C2: the agree pass and the assign pass traverse the communicator forest
below WORLD in the identical deterministic order — depth-first, children in
creation order, a node handled before its children — captured by the single
canonical enumeration `visitList`, a pure function of tree structure.
Conjunct 1: the agree pass appends to the shared table the `visitList`
coordinates of the `is_root`-flagged nodes with sequential ids.  Conjunct 2:
the assign pass stores into the nodes, in the same `visitList` order, the
table's entries at the visited coordinates.  Conjunct 3: those coordinates do
not depend on the `is_root` flags (the only rank-local data in the tree).
Conjunct 4: consequently two ranks holding forests of the same shape — as
every member rank of each communicator does for a well-formed trace — resolve
the identical global id at every node from the same agreed table `g`. -/
theorem C2_agree_assign_consistent (ts t1 t2 : List CommTree) (stk : List Int)
    (a g : global_id_assigner)
    (ha : a.stack = []) (hshape : stripList t1 = stripList t2) :
    ((agree_global_ids ts a).assigned
        = a.assigned ++ withIds (rootsOf (visitList ts [-1])) a.next_id)
    ∧ (flattenIds (assign_global_ids ts g)
        = (visitList ts [-1]).map (fun p => lookupId g p.1))
    ∧ ((visitList ts stk).map Prod.fst
        = (visitList (stripList ts) stk).map Prod.fst)
    ∧ (assign_global_ids t1 g = assign_global_ids t2 g) := by
  refine ⟨?_, ?_, visitList_strip ts stk, ?_⟩
  · unfold agree_global_ids
    rw [agree_each_spec ts (add_level a)]
    simp [remove_level, add_level, ha]
  · unfold assign_global_ids
    rw [(assign_each_spec ts g (tid_add_level ⟨[]⟩)).2]
    rfl
  · unfold assign_global_ids
    rw [assign_each_strip t1 g (tid_add_level ⟨[]⟩), hshape,
      ← assign_each_strip t2 g (tid_add_level ⟨[]⟩)]

/-- Witness for C2 on the concrete forests `exTreeA` / `exTreeB`: two ranks'
views of the same three-communicator shape with different root flags. -/
theorem C2_agree_assign_consistent_witness :
    ((agree_global_ids exTreeA exAssigner).assigned
        = exAssigner.assigned
          ++ withIds (rootsOf (visitList exTreeA [-1])) exAssigner.next_id)
    ∧ (flattenIds (assign_global_ids exTreeA exTable)
        = (visitList exTreeA [-1]).map (fun p => lookupId exTable p.1))
    ∧ ((visitList exTreeA []).map Prod.fst
        = (visitList (stripList exTreeA) []).map Prod.fst)
    ∧ (assign_global_ids exTreeA exTable = assign_global_ids exTreeB exTable) :=
  C2_agree_assign_consistent exTreeA exTreeA exTreeB [] exAssigner exTable rfl
    (by simp [exTreeA, exTreeB, stripList_cons, stripList_nil])

end Dumpi
